import Mathlib

/-!
Shallow embedding of the distil-labs commit bot (src/bot.py): the debounced
file-system watcher, the git-diff extraction and normalization pipeline, the
prompt builder and the completion-client call.  Strings are modelled as
`List Char` where character-level reasoning is needed, and as `String` for
the prompt texts.  Timestamps (Python `time.time()` floats) are modelled as
rationals.
-/

/-- State of the debounce gate owned by `RepositoryChangeHandler`
(bot.py lines 110-114): `last_trigger_time` starts at 0, and
`debounce_seconds` defaults to 10. -/
structure DebounceState where
  last_trigger_time : ℚ
  debounce_seconds : ℚ
deriving DecidableEq, Repr

/-- Initial handler state from `RepositoryChangeHandler.__init__`:
`last_trigger_time = 0`, default `debounce_seconds = 10`. -/
def initialHandlerState : DebounceState := ⟨0, 10⟩

/-- The debounce check-and-update of `on_any_event` (bot.py lines 121-123):
allowed iff `current_time - last_trigger_time >= debounce_seconds`; on allow
the timestamp is set to `now`, on deny the state is unchanged. -/
def tryTrigger (st : DebounceState) (now : ℚ) : Bool × DebounceState :=
  if st.debounce_seconds ≤ now - st.last_trigger_time then
    (true, ⟨now, st.debounce_seconds⟩)
  else
    (false, st)

/-- Folds a sequence of qualifying event timestamps through the debounce
gate, returning the number of pipeline triggers and the final state. -/
def processEvents : DebounceState → List ℚ → Nat × DebounceState
  | st, [] => (0, st)
  | st, t :: ts =>
    let r := tryTrigger st t
    let c := processEvents r.2 ts
    ((if r.1 then 1 else 0) + c.1, c.2)

/-- Scans for the closing marker of the regex fragment `[^@]*@@`: consumes
characters other than the at sign, then requires two consecutive at signs.
Returns the consumed characters followed by the two-character closing marker
(the tail of the regex group), or none when the fragment does not match. -/
def closeHunk : List Char → Option (List Char)
  | [] => none
  | c :: rest =>
    if c = '@' then
      match rest with
      | d :: _ => if d = '@' then some ['@', '@'] else none
      | [] => none
    else
      (closeHunk rest).map (fun m => c :: m)

/-- Attempts the regex `(@@[^@]*@@)` at the head of the string, returning
the matched group on success. -/
def matchHunkAt : List Char → Option (List Char)
  | a :: b :: rest =>
    if a = '@' then
      if b = '@' then (closeHunk rest).map (fun m => '@' :: '@' :: m) else none
    else none
  | _ => none

/-- Leftmost-match substitution `re.sub(r"(@@[^@]*@@).*", r"\1", line)`
(bot.py line 84): scan left to right for the first position where
`@@[^@]*@@` matches; there, keep the prefix and the matched group and drop
the rest of the line (consumed by the trailing `.*`); if no position
matches, the line is returned unchanged. -/
def subHunk : List Char → List Char
  | [] => []
  | c :: rest =>
    match matchHunkAt (c :: rest) with
    | some g => g
    | none => c :: subHunk rest

/-- Per-line normalization step (bot.py line 84): the substitution is
applied only to lines satisfying `line.startswith("@@")`; all other lines
pass through unchanged. -/
def normLine (l : List Char) : List Char :=
  if l.take 2 = ['@', '@'] then subHunk l else l

/-- Python `str.split("\n")`: splits on each newline; the empty string
splits to a single empty piece, and a trailing newline yields a trailing
empty piece. -/
def splitNL : List Char → List (List Char)
  | [] => [[]]
  | c :: rest =>
    match splitNL rest with
    | [] => [[]]
    | l :: ls => if c = '\n' then [] :: l :: ls else (c :: l) :: ls

/-- Python `"\n".join(pieces)`. -/
def joinNL : List (List Char) → List Char
  | [] => []
  | [l] => l
  | l :: ls => l ++ '\n' :: joinNL ls

/-- The diff normalizer of bot.py lines 83-86 (the spec's DiffNormalizer):
split the captured diff on newlines, rewrite each line starting with two at
signs by the hunk-header substitution, and join the lines back with
newlines. -/
def normalizeDiff (s : List Char) : List Char :=
  joinNL ((splitNL s).map normLine)

/-- Outcome of the `subprocess.run` call for `git diff --no-ext-diff -U0
HEAD` (bot.py lines 67-79): the diff command succeeds with captured
standard output, or raises `CalledProcessError` carrying the captured error
stream (non-zero exit under `check=True`), or raises some other
`Exception` (for example `FileNotFoundError` when the git executable is
absent, or `NotADirectoryError` for a bad working directory). -/
inductive DiffResult where
  | success (stdout : List Char)
  | calledProcessError (stderr : List Char)
  | otherError (msg : List Char)
deriving DecidableEq, Repr

/-- Observable outcome of one run of `run_git_diff_analysis`:
an error line printed to standard error (trigger skipped, no client call),
the "No changes found" notice (no client call), or an invocation of
`client.invoke(DEFAULT_QUESTION, context)` with the normalized diff. -/
inductive RunOutcome where
  | errorLogged (stderrLine : List Char)
  | noChanges
  | invoked (context : List Char)
deriving DecidableEq, Repr

/-- Embedding of `run_git_diff_analysis` (bot.py lines 64-104): on a
`CalledProcessError` print "Error running git diff: {stderr}" to standard
error and return; on any other exception print "Error: {e}" and return; on
success normalize the captured stdout, print the no-changes notice and
return when it is empty (`if not context:`), and otherwise invoke the
completion client on the normalized diff. -/
def run_git_diff_analysis : DiffResult → RunOutcome
  | .calledProcessError e => .errorLogged ("Error running git diff: ".toList ++ e)
  | .otherError e => .errorLogged ("Error: ".toList ++ e)
  | .success out =>
    let context := normalizeDiff out
    if context = [] then .noChanges else .invoked context

/-- A watchdog file-system event as consumed by `on_any_event`: its source
path and whether it is a directory event. -/
structure FileSystemEvent where
  src_path : List Char
  is_directory : Bool
deriving DecidableEq, Repr

/-- Observable outcome of `RepositoryChangeHandler.on_any_event` for one
event: discarded by the path/directory filter before the debounce check,
denied by the debounce gate, or triggered (running the pipeline with the
given diff outcome). -/
inductive EventOutcome where
  | ignored
  | debounced
  | triggered (result : RunOutcome)
deriving DecidableEq, Repr

/-- Embedding of `RepositoryChangeHandler.on_any_event` (bot.py lines
116-124): an event is discarded when `".git" in event.src_path or
event.is_directory`; otherwise the debounce gate is consulted and, when it
allows, `run_git_diff_analysis` runs (its subprocess outcome supplied by
the environment as `diff`).  Returns the outcome and the updated handler
state. -/
def on_any_event (st : DebounceState) (e : FileSystemEvent) (now : ℚ)
    (diff : DiffResult) : EventOutcome × DebounceState :=
  if ".git".toList <:+: e.src_path ∨ e.is_directory = true then
    (.ignored, st)
  else
    let r := tryTrigger st now
    if r.1 then (.triggered (run_git_diff_analysis diff), r.2) else (.debounced, r.2)

/-- The module constant DEFAULT_QUESTION (bot.py line 12). -/
def DEFAULT_QUESTION : String := "Process the context according to the task description."

/-- One chat message in a completion request, as the dictionaries built by
`get_prompt`. -/
structure ChatMessage where
  role : String
  content : String
deriving DecidableEq, Repr

/-- The fixed system-message text of `get_prompt` (bot.py lines 28-41),
identical across all invocations. -/
def taskSystemContent : String :=
  "\nYou are a problem solving model working on task_description XML block:\n<task_description>## Task\nGenerate a concise yet informative git commit message draft from a `git diff` output. The message should include a title (under 50 characters) and optionally a body for additional context when necessary. The commit message should summarize the changes by identifying what was added, modified, or removed, and explain the purpose or impact of those changes in a clear, technical manner.\n\n## Inputs\nThe raw output string from the `git diff` command, which shows changes between commits, commit and working tree, etc. This includes file paths, added/removed lines, and change context across multiple files. The diff may include code modifications, new files, deleted files, and comments indicating the nature of changes.\n\n## Outputs\nA string in conventional git commit message format: a title line (<=50 characters) followed by an optional blank line and a body paragraph for elaboration. The body should provide specific details about the changes made, including functionality added, bugs fixed, or architectural improvements. Omit the body if the title sufficiently describes the changes.</task_description>\nYou will be given a single task with context in the context XML block and the task in the question XML block\nSolve the task in question block based on the context in context block.\nGenerate only the answer, do not generate anything else\n"

/-- The fixed user-message text before the interpolated context
(bot.py lines 45-49 of the f-string). -/
def userHead : String :=
  "\n\nNow for the real task, solve the task in question block based on the context in context block.\nGenerate only the solution, do not generate anything else\n<context>"

/-- The fixed user-message text between the interpolated context and the
interpolated question (bot.py lines 49-50 of the f-string). -/
def userMid : String := "</context>\n<question>"

/-- The fixed user-message text after the interpolated question
(bot.py lines 50-51 of the f-string). -/
def userTail : String := "</question>\n"

/-- Embedding of `DistilLabsLLM.get_prompt` (bot.py lines 20-53): a
two-element list, the fixed system message followed by the user message
interpolating the context and the question into the f-string. -/
def get_prompt (question context : String) : List ChatMessage :=
  [⟨"system", taskSystemContent⟩,
   ⟨"user", userHead ++ context ++ userMid ++ question ++ userTail⟩]

/-- Constructor arguments of `DistilLabsLLM.__init__` (bot.py lines
16-18). -/
structure DistilLabsLLM where
  model_name : String
  api_key : String
  port : Nat
deriving DecidableEq, Repr

/-- A chat-completion request as assembled by
`client.chat.completions.create` in `DistilLabsLLM.invoke` (bot.py lines
56-60): model name, messages and sampling temperature. -/
structure CompletionRequest where
  model : String
  messages : List ChatMessage
  temperature : ℚ
deriving DecidableEq, Repr

/-- One generated choice of a chat-completion response. -/
structure ResponseChoice where
  message : ChatMessage
deriving DecidableEq, Repr

/-- A chat-completion response: its list of generated choices. -/
structure ChatResponse where
  choices : List ResponseChoice
deriving DecidableEq, Repr

/-- The completion request sent by `DistilLabsLLM.invoke` (bot.py lines
56-60): the configured model name, the messages from `get_prompt`, and
temperature 0. -/
def mkChatRequest (llm : DistilLabsLLM) (question context : String) :
    CompletionRequest :=
  ⟨llm.model_name, get_prompt question context, 0⟩

/-- Embedding of `DistilLabsLLM.invoke` (bot.py lines 55-61): sends the
request built by `mkChatRequest` to the completion endpoint (modelled as
the function `respond`) and returns `chat_response.choices[0]
.message.content`; the empty-choices case (an index error in Python) is
modelled as `none`. -/
def invoke (llm : DistilLabsLLM) (question context : String)
    (respond : CompletionRequest → ChatResponse) : Option String :=
  ((respond (mkChatRequest llm question context)).choices.head?).map
    (fun ch => ch.message.content)

/-- Result of the `__main__` block (bot.py lines 148-176) as a function of
the validated repository path: either the process exits with a status code
and an error line on standard error before the completion client or any
watcher is constructed, or it enters watch mode with a freshly constructed
handler state, or it runs the pipeline once (one-shot mode). -/
inductive MainResult where
  | exited (code : Nat) (stderrLine : List Char)
  | watching (initial : DebounceState)
  | ranOnce (result : RunOutcome)
deriving DecidableEq, Repr

/-- Embedding of the `__main__` block (bot.py lines 148-176): if the
repository path does not exist, print the error to standard error and exit
with status 1 before constructing the completion client or the watcher;
otherwise either start watching (with the handler state of
`RepositoryChangeHandler.__init__`) or run `run_git_diff_analysis` once. -/
def mainRun (path : List Char) (pathExists watch : Bool)
    (diff : DiffResult) : MainResult :=
  if pathExists = false then
    .exited 1 ("Error: Repository path does not exist: ".toList ++ path)
  else if watch then
    .watching initialHandlerState
  else
    .ranOnce (run_git_diff_analysis diff)

/-- A line of the shape the claim calls "beginning with a hunk marker pair":
an opening pair of at signs, an interior free of at signs, and a closing
pair of at signs, followed by arbitrary trailing text. -/
def BeginsWithHunkPair (l : List Char) : Prop :=
  ∃ mid rest, '@' ∉ mid ∧ l = '@' :: '@' :: (mid ++ '@' :: '@' :: rest)

/-- A line containing, anywhere, a substring of the form matched by the
regex `@@[^@]*@@`. -/
def ContainsHunkPair (l : List Char) : Prop :=
  ∃ pre mid rest, '@' ∉ mid ∧ l = pre ++ '@' :: '@' :: (mid ++ '@' :: '@' :: rest)

theorem matchHunkAt_none_of_head (c : Char) (s : List Char) (hc : c ≠ '@') :
    matchHunkAt (c :: s) = none := by
  cases s with
  | nil => rfl
  | cons b t => simp [matchHunkAt, hc]

theorem matchHunkAt_none_of_second (a d : Char) (s : List Char) (hd : d ≠ '@') :
    matchHunkAt (a :: d :: s) = none := by
  simp [matchHunkAt, hd]

theorem closeHunk_head (s m : List Char) (h : closeHunk s = some m) :
    m.head? = s.head? := by
  cases s with
  | nil => simp [closeHunk] at h
  | cons c rest =>
    by_cases hc : c = '@'
    · subst hc
      cases rest with
      | nil => simp [closeHunk] at h
      | cons d u =>
        by_cases hd : d = '@'
        · subst hd
          simp [closeHunk] at h
          subst h
          rfl
        · simp [closeHunk, hd] at h
    · simp [closeHunk, hc] at h
      obtain ⟨m', _, rfl⟩ := h
      rfl

theorem closeHunk_self (s m : List Char) (h : closeHunk s = some m) :
    closeHunk m = some m := by
  induction s generalizing m with
  | nil => simp [closeHunk] at h
  | cons c rest ih =>
    by_cases hc : c = '@'
    · subst hc
      cases rest with
      | nil => simp [closeHunk] at h
      | cons d u =>
        by_cases hd : d = '@'
        · subst hd
          simp [closeHunk] at h
          subst h
          rfl
        · simp [closeHunk, hd] at h
    · simp [closeHunk, hc] at h
      obtain ⟨m', hm', rfl⟩ := h
      have := ih m' hm'
      simp [closeHunk, hc, this]

theorem closeHunk_mem (s m : List Char) (h : closeHunk s = some m) :
    ∀ a ∈ m, a ∈ s := by
  induction s generalizing m with
  | nil => simp [closeHunk] at h
  | cons c rest ih =>
    by_cases hc : c = '@'
    · subst hc
      cases rest with
      | nil => simp [closeHunk] at h
      | cons d u =>
        by_cases hd : d = '@'
        · subst hd
          simp [closeHunk] at h
          subst h
          intro a ha
          simp at ha
          simp [ha]
        · simp [closeHunk, hd] at h
    · simp [closeHunk, hc] at h
      obtain ⟨m', hm', rfl⟩ := h
      intro a ha
      rcases List.mem_cons.mp ha with rfl | ha'
      · simp
      · exact List.mem_cons_of_mem c (ih m' hm' a ha')

theorem closeHunk_decomp (s m : List Char) (h : closeHunk s = some m) :
    ∃ mid rest, '@' ∉ mid ∧ s = mid ++ '@' :: '@' :: rest ∧ m = mid ++ ['@', '@'] := by
  induction s generalizing m with
  | nil => simp [closeHunk] at h
  | cons c rest ih =>
    by_cases hc : c = '@'
    · subst hc
      cases rest with
      | nil => simp [closeHunk] at h
      | cons d u =>
        by_cases hd : d = '@'
        · subst hd
          simp [closeHunk] at h
          exact ⟨[], u, by simp, by simp, by simp [h.symm]⟩
        · simp [closeHunk, hd] at h
    · simp [closeHunk, hc] at h
      obtain ⟨m', hm', rfl⟩ := h
      obtain ⟨mid, rest', hmid, hs, hm⟩ := ih m' hm'
      refine ⟨c :: mid, rest', ?_, by simp [hs], by simp [hm]⟩
      simp [hmid]
      exact Ne.symm hc

theorem closeHunk_of_split (mid rest : List Char) (h : '@' ∉ mid) :
    closeHunk (mid ++ '@' :: '@' :: rest) = some (mid ++ ['@', '@']) := by
  induction mid with
  | nil => simp [closeHunk]
  | cons c mid' ih =>
    have hc : c ≠ '@' := fun hcc => h (by simp [hcc])
    have h' : '@' ∉ mid' := fun hm => h (by simp [hm])
    simp [closeHunk, hc, ih h']

theorem subHunk_cons_none (c : Char) (rest : List Char)
    (h : matchHunkAt (c :: rest) = none) :
    subHunk (c :: rest) = c :: subHunk rest := by
  simp [subHunk, h]

theorem subHunk_of_match (s g : List Char) (h : matchHunkAt s = some g) :
    subHunk s = g := by
  cases s with
  | nil => simp [matchHunkAt] at h
  | cons c rest => simp [subHunk, h]

theorem matchHunkAt_shape (s g : List Char) (h : matchHunkAt s = some g) :
    ∃ rest m, s = '@' :: '@' :: rest ∧ closeHunk rest = some m ∧
      g = '@' :: '@' :: m := by
  cases s with
  | nil => simp [matchHunkAt] at h
  | cons a t =>
    cases t with
    | nil => simp [matchHunkAt] at h
    | cons b rest =>
      by_cases ha : a = '@'
      · by_cases hb : b = '@'
        · subst ha; subst hb
          simp [matchHunkAt] at h
          obtain ⟨m, hm, rfl⟩ := h
          exact ⟨rest, m, rfl, hm, rfl⟩
        · simp [matchHunkAt, hb] at h
      · simp [matchHunkAt, ha] at h

theorem closeHunk_none_subHunk (s : List Char) (h : closeHunk s = none) :
    closeHunk (subHunk s) = none := by
  induction s with
  | nil => simp [subHunk, closeHunk]
  | cons c rest ih =>
    by_cases hc : c = '@'
    · subst hc
      cases rest with
      | nil => simp [subHunk, matchHunkAt, closeHunk]
      | cons d u =>
        by_cases hd : d = '@'
        · subst hd
          simp [closeHunk] at h
        · rw [subHunk_cons_none _ _ (matchHunkAt_none_of_second _ _ _ hd)]
          rw [subHunk_cons_none _ _ (matchHunkAt_none_of_head _ _ hd)]
          simp [closeHunk, hd]
    · have h' : closeHunk rest = none := by
        by_contra hne
        obtain ⟨m, hm⟩ := Option.ne_none_iff_exists'.mp hne
        simp [closeHunk, hc, hm] at h
      rw [subHunk_cons_none _ _ (matchHunkAt_none_of_head _ _ hc)]
      simp [closeHunk, hc, ih h']

theorem subHunk_head (s : List Char) : (subHunk s).head? = s.head? := by
  cases s with
  | nil => rfl
  | cons c rest =>
    cases h : matchHunkAt (c :: rest) with
    | none => simp [subHunk, h]
    | some g =>
      obtain ⟨rest', m, hs, _, rfl⟩ := matchHunkAt_shape _ _ h
      rw [subHunk_of_match _ _ h]
      have : c = '@' := by
        have := congrArg List.head? hs
        simpa using this
      simp [this]

theorem matchHunkAt_none_subHunk (c : Char) (s : List Char)
    (h : matchHunkAt (c :: s) = none) :
    matchHunkAt (c :: subHunk s) = none := by
  by_cases hc : c = '@'
  · subst hc
    cases s with
    | nil => rfl
    | cons b rest =>
      by_cases hb : b = '@'
      · subst hb
        have hcl : closeHunk rest = none := by
          by_contra hne
          obtain ⟨m, hm⟩ := Option.ne_none_iff_exists'.mp hne
          simp [matchHunkAt, hm] at h
        cases hm : matchHunkAt ('@' :: rest) with
        | none =>
          rw [subHunk_cons_none _ _ hm]
          simp [matchHunkAt, closeHunk_none_subHunk rest hcl]
        | some g =>
          obtain ⟨rest', m, hs, hcm, rfl⟩ := matchHunkAt_shape _ _ hm
          rw [subHunk_of_match _ _ hm]
          have hrest : rest = '@' :: rest' := by
            simpa using hs
          have hmh : m.head? = rest'.head? := closeHunk_head _ _ hcm
          cases rest' with
          | nil => simp [closeHunk] at hcm
          | cons e v =>
            have he : e ≠ '@' := by
              intro hee
              subst hee
              rw [hrest] at hcl
              simp [closeHunk] at hcl
            cases m with
            | nil => simp at hmh
            | cons e' m' =>
              have : e' = e := by simpa using hmh
              subst this
              simp [matchHunkAt, closeHunk, he]
      · have hmb : matchHunkAt (b :: rest) = none :=
          matchHunkAt_none_of_head _ _ hb
        rw [subHunk_cons_none _ _ hmb]
        exact matchHunkAt_none_of_second _ _ _ hb
  · exact matchHunkAt_none_of_head _ _ hc

theorem matchHunkAt_self (s g : List Char) (h : matchHunkAt s = some g) :
    matchHunkAt g = some g := by
  obtain ⟨rest, m, _, hcm, rfl⟩ := matchHunkAt_shape _ _ h
  simp [matchHunkAt, closeHunk_self _ _ hcm]

theorem subHunk_idem (s : List Char) : subHunk (subHunk s) = subHunk s := by
  induction s with
  | nil => rfl
  | cons c rest ih =>
    cases h : matchHunkAt (c :: rest) with
    | some g =>
      rw [subHunk_of_match _ _ h]
      exact subHunk_of_match _ _ (matchHunkAt_self _ _ h)
    | none =>
      rw [subHunk_cons_none _ _ h]
      rw [subHunk_cons_none _ _ (matchHunkAt_none_subHunk _ _ h)]
      rw [ih]

theorem subHunk_mem (s : List Char) : ∀ a ∈ subHunk s, a ∈ s := by
  induction s with
  | nil => simp [subHunk]
  | cons c rest ih =>
    cases h : matchHunkAt (c :: rest) with
    | some g =>
      rw [subHunk_of_match _ _ h]
      obtain ⟨rest', m, hs, hcm, rfl⟩ := matchHunkAt_shape _ _ h
      intro a ha
      rw [hs]
      rcases List.mem_cons.mp ha with rfl | ha'
      · simp
      · rcases List.mem_cons.mp ha' with rfl | ha''
        · simp
        · simp [List.mem_cons_of_mem _ (List.mem_cons_of_mem _
            (closeHunk_mem _ _ hcm a ha''))]
    | none =>
      rw [subHunk_cons_none _ _ h]
      intro a ha
      rcases List.mem_cons.mp ha with rfl | ha'
      · simp
      · exact List.mem_cons_of_mem c (ih a ha')

theorem subHunk_take_two (s : List Char) (h : s.take 2 = ['@', '@']) :
    (subHunk s).take 2 = ['@', '@'] := by
  cases s with
  | nil => simp at h
  | cons a t =>
    cases t with
    | nil => simp at h
    | cons b rest =>
      simp at h
      obtain ⟨rfl, rfl⟩ := h
      cases hm : matchHunkAt ('@' :: '@' :: rest) with
      | some g =>
        rw [subHunk_of_match _ _ hm]
        obtain ⟨rest', m, _, _, rfl⟩ := matchHunkAt_shape _ _ hm
        rfl
      | none =>
        rw [subHunk_cons_none _ _ hm]
        have h2 : (subHunk ('@' :: rest)).head? = some '@' := by
          rw [subHunk_head]
          rfl
        cases hs : subHunk ('@' :: rest) with
        | nil => simp [hs] at h2
        | cons x xs =>
          rw [hs] at h2
          simp at h2
          simp [h2]

theorem normLine_idem (l : List Char) : normLine (normLine l) = normLine l := by
  by_cases h : l.take 2 = ['@', '@']
  · simp [normLine, h, subHunk_take_two l h, subHunk_idem]
  · simp [normLine, h]

theorem normLine_no_nl (l : List Char) (h : '\n' ∉ l) : '\n' ∉ normLine l := by
  rw [normLine]
  split
  · intro hmem
    exact h (subHunk_mem l '\n' hmem)
  · exact h

theorem normLine_ne_nil (l : List Char) (h : l ≠ []) : normLine l ≠ [] := by
  rw [normLine]
  split
  · intro hs
    have := subHunk_head l
    rw [hs] at this
    cases l with
    | nil => exact h rfl
    | cons c rest => simp at this
  · exact h

theorem splitNL_ne_nil (s : List Char) : splitNL s ≠ [] := by
  cases s with
  | nil => simp [splitNL]
  | cons c rest =>
    cases hsp : splitNL rest with
    | nil => simp [splitNL, hsp]
    | cons l ls => by_cases hc : c = '\n' <;> simp [splitNL, hsp, hc]

theorem splitNL_no_nl (s : List Char) : ∀ l ∈ splitNL s, '\n' ∉ l := by
  induction s with
  | nil =>
    intro l hl
    simp [splitNL] at hl
    simp [hl]
  | cons c rest ih =>
    intro l hl
    cases hsp : splitNL rest with
    | nil => exact absurd hsp (splitNL_ne_nil rest)
    | cons p ps =>
      simp only [splitNL, hsp] at hl
      by_cases hc : c = '\n'
      · subst hc
        simp at hl
        rcases hl with rfl | h2
        · simp
        · exact ih l (by rw [hsp]; exact List.mem_cons.mpr h2)
      · simp [hc] at hl
        rcases hl with rfl | hl
        · intro hmem
          rcases List.mem_cons.mp hmem with he | hmem'
          · exact hc he.symm
          · exact ih p (by rw [hsp]; exact List.mem_cons_self p ps) hmem'
        · exact ih l (by rw [hsp]; exact List.mem_cons_of_mem p hl)

theorem splitNL_of_no_nl (l : List Char) (h : '\n' ∉ l) : splitNL l = [l] := by
  induction l with
  | nil => rfl
  | cons c rest ih =>
    have hc : c ≠ '\n' := fun he => h (by simp [he])
    have h' : '\n' ∉ rest := fun hm => h (by simp [hm])
    simp [splitNL, ih h', hc]

theorem splitNL_append (l t : List Char) (h : '\n' ∉ l) :
    splitNL (l ++ '\n' :: t) = l :: splitNL t := by
  induction l with
  | nil =>
    cases hsp : splitNL t with
    | nil => exact absurd hsp (splitNL_ne_nil t)
    | cons p ps => simp [splitNL, hsp]
  | cons c rest ih =>
    have hc : c ≠ '\n' := fun he => h (by simp [he])
    have h' : '\n' ∉ rest := fun hm => h (by simp [hm])
    simp only [List.cons_append, splitNL, List.append_eq]
    rw [ih h']
    simp [hc]

theorem splitNL_joinNL : ∀ ls : List (List Char), ls ≠ [] →
    (∀ l ∈ ls, '\n' ∉ l) → splitNL (joinNL ls) = ls
  | [], h, _ => absurd rfl h
  | [l], _, h2 => by
    rw [show joinNL [l] = l from rfl]
    exact splitNL_of_no_nl l (h2 l (by simp))
  | l :: l' :: ls, _, h2 => by
    rw [show joinNL (l :: l' :: ls) = l ++ '\n' :: joinNL (l' :: ls) from rfl]
    rw [splitNL_append _ _ (h2 l (by simp))]
    rw [splitNL_joinNL (l' :: ls) (by simp) (fun x hx => h2 x (by simp [hx]))]

/-- C3: the diff normalization transform is idempotent; applying the
normalizer to its own output yields the identical string. -/
theorem C3_normalizer_idempotent (x : List Char) :
    normalizeDiff (normalizeDiff x) = normalizeDiff x := by
  unfold normalizeDiff
  rw [splitNL_joinNL ((splitNL x).map normLine)
    (by simp [splitNL_ne_nil x])
    (by
      intro l hl
      obtain ⟨a, ha, rfl⟩ := List.mem_map.mp hl
      exact normLine_no_nl a (splitNL_no_nl x a ha))]
  congr 1
  generalize splitNL x = ls
  induction ls with
  | nil => rfl
  | cons p ps ih => simp [normLine_idem, ih]

theorem normalizeDiff_ne_nil (out : List Char) (h : out ≠ []) :
    normalizeDiff out ≠ [] := by
  unfold normalizeDiff
  cases out with
  | nil => exact absurd rfl h
  | cons c rest =>
    cases hsp : splitNL rest with
    | nil => exact absurd hsp (splitNL_ne_nil rest)
    | cons p ps =>
      by_cases hc : c = '\n'
      · subst hc
        rw [show splitNL ('\n' :: rest) = [] :: p :: ps from by simp [splitNL, hsp]]
        simp only [List.map_cons]
        rw [show normLine [] = [] from rfl]
        rw [show joinNL ([] :: normLine p :: (ps.map normLine)) =
          [] ++ '\n' :: joinNL (normLine p :: ps.map normLine) from rfl]
        simp
      · rw [show splitNL (c :: rest) = (c :: p) :: ps from by simp [splitNL, hsp, hc]]
        simp only [List.map_cons]
        have hnn : normLine (c :: p) ≠ [] := normLine_ne_nil _ (by simp)
        cases hmp : ps.map normLine with
        | nil =>
          rw [show joinNL [normLine (c :: p)] = normLine (c :: p) from rfl]
          exact hnn
        | cons y ys =>
          rw [show joinNL (normLine (c :: p) :: y :: ys) =
            normLine (c :: p) ++ '\n' :: joinNL (y :: ys) from rfl]
          simp

/-- C1 (counterexample): the claim as stated is false: a captured standard
output consisting of a single newline character is empty after trimming
whitespace, yet `run_git_diff_analysis` does not classify it as Empty: the
emptiness test is `if not context:` on the untrimmed normalized text, so
the completion client is invoked on the whitespace-only diff. -/
theorem C1_trimmed_empty_counterexample :
    ("\n".toList.all Char.isWhitespace = true) ∧
    run_git_diff_analysis (.success "\n".toList) = .invoked "\n".toList ∧
    run_git_diff_analysis (.success "\n".toList) ≠ .noChanges := by
  refine ⟨by decide, by decide, by decide⟩

/-- C1 (amended): if the captured git-diff standard output is the empty
string (not merely empty after trimming), the run classifies the result as
Empty, prints the no-changes notice and does not invoke the
CompletionClient; the completion service is invoked exactly when the
captured standard output is a non-empty string, whitespace-only output
included. -/
theorem C1_empty_diff_gating (out : List Char) :
    (out = [] → run_git_diff_analysis (.success out) = .noChanges) ∧
    (out ≠ [] →
      run_git_diff_analysis (.success out) = .invoked (normalizeDiff out)) ∧
    (∀ ctx, run_git_diff_analysis (.success out) = .invoked ctx → out ≠ []) := by
  refine ⟨?_, ?_, ?_⟩
  · rintro rfl
    decide
  · intro h
    unfold run_git_diff_analysis
    simp [normalizeDiff_ne_nil out h]
  · intro ctx h hout
    subst hout
    rw [show run_git_diff_analysis (.success []) = .noChanges from by decide] at h
    simp at h

/-- C1 witness: a one-line added diff is non-empty, so the client is
invoked on its normalized text. -/
theorem C1_empty_diff_gating_witness :
    run_git_diff_analysis (.success "+x".toList) =
      .invoked (normalizeDiff "+x".toList) :=
  (C1_empty_diff_gating "+x".toList).2.1 (by decide)

theorem processEvents_no_trigger (i t : ℚ) (ts : List ℚ)
    (h : ∀ u ∈ ts, u - t < i) : processEvents ⟨t, i⟩ ts = (0, ⟨t, i⟩) := by
  induction ts with
  | nil => rfl
  | cons u us ih =>
    have hu : u - t < i := h u (by simp)
    have htr : tryTrigger ⟨t, i⟩ u = (false, ⟨t, i⟩) := by
      simp [tryTrigger, not_le.mpr hu]
    simp [processEvents, htr, ih (fun v hv => h v (by simp [hv]))]

/-- C2: the debounce gate triggers iff `now - lastTriggerAt >=
intervalSeconds` (default interval 10); a trigger sets `lastTriggerAt :=
now` and a denial leaves the state unchanged; consequently, of a ready
gate, the first of any burst of qualifying events within one interval
triggers and the rest are denied (exactly one trigger), while two
qualifying events separated by at least the interval both trigger. -/
theorem C2_debounce_gate :
    (∀ st : DebounceState, ∀ now : ℚ,
      ((tryTrigger st now).1 = true ↔
        st.debounce_seconds ≤ now - st.last_trigger_time)) ∧
    (∀ st : DebounceState, ∀ now : ℚ, (tryTrigger st now).1 = true →
      (tryTrigger st now).2 = ⟨now, st.debounce_seconds⟩) ∧
    (∀ st : DebounceState, ∀ now : ℚ, (tryTrigger st now).1 = false →
      (tryTrigger st now).2 = st) ∧
    initialHandlerState.debounce_seconds = 10 ∧
    (∀ i last t : ℚ, ∀ ts : List ℚ, i ≤ t - last → (∀ u ∈ ts, u - t < i) →
      (processEvents ⟨last, i⟩ (t :: ts)).1 = 1) ∧
    (∀ i last t1 t2 : ℚ, i ≤ t1 - last → i ≤ t2 - t1 →
      (processEvents ⟨last, i⟩ [t1, t2]).1 = 2) := by
  refine ⟨?_, ?_, ?_, rfl, ?_, ?_⟩
  · intro st now
    unfold tryTrigger
    split <;> simp_all
  · intro st now
    unfold tryTrigger
    split <;> simp_all
  · intro st now
    unfold tryTrigger
    split <;> simp_all
  · intro i last t ts h1 h2
    have htr : tryTrigger ⟨last, i⟩ t = (true, ⟨t, i⟩) := by
      simp [tryTrigger, h1]
    simp [processEvents, htr, processEvents_no_trigger i t ts h2]
  · intro i last t1 t2 h1 h2
    have e1 : tryTrigger ⟨last, i⟩ t1 = (true, ⟨t1, i⟩) := by
      simp [tryTrigger, h1]
    have e2 : tryTrigger ⟨t1, i⟩ t2 = (true, ⟨t2, i⟩) := by
      simp [tryTrigger, h2]
    simp [processEvents, e1, e2]

/-- C2 witness: from a ready gate, a burst of three events inside one
10-second interval yields one trigger, and two events 10 seconds apart
yield two. -/
theorem C2_debounce_gate_witness :
    (processEvents ⟨0, 10⟩ [11, 12, 20]).1 = 1 ∧
    (processEvents ⟨0, 10⟩ [11, 21]).1 = 2 := by
  constructor
  · refine C2_debounce_gate.2.2.2.2.1 10 0 11 [12, 20] (by norm_num) ?_
    intro u hu
    rcases List.mem_cons.mp hu with rfl | hu'
    · norm_num
    · rcases List.mem_cons.mp hu' with rfl | hu''
      · norm_num
      · simp at hu''
  · exact C2_debounce_gate.2.2.2.2.2 10 0 11 21 (by norm_num) (by norm_num)

theorem subHunk_of_no_pair (l : List Char) (h : ¬ ContainsHunkPair l) :
    subHunk l = l := by
  induction l with
  | nil => rfl
  | cons c rest ih =>
    cases hm : matchHunkAt (c :: rest) with
    | some g =>
      obtain ⟨rest', m, hs, hcm, rfl⟩ := matchHunkAt_shape _ _ hm
      obtain ⟨mid, r2, hmid, hr, _⟩ := closeHunk_decomp _ _ hcm
      exact absurd ⟨[], mid, r2, hmid, by simp [hs, hr]⟩ h
    | none =>
      rw [subHunk_cons_none _ _ hm]
      rw [ih (fun hcp => h (by
        obtain ⟨pre, mid, r2, hmid, hr⟩ := hcp
        exact ⟨c :: pre, mid, r2, hmid, by simp [hr]⟩))]

/-- C4 (counterexample): the claim as stated is false: the line
`@@@a@@b` does not begin with a hunk marker pair (the interior of a pair
must be free of at signs, and the character after the opening pair is an
at sign followed by a non-at sign), so by the claim it should pass through
unchanged; but the regex substitution finds the match `@@a@@` starting at
position 1 and drops the trailing `b`, rewriting the line. -/
theorem C4_passthrough_counterexample :
    ¬ BeginsWithHunkPair ('@' :: '@' :: '@' :: 'a' :: '@' :: '@' :: 'b' :: []) ∧
    normLine ('@' :: '@' :: '@' :: 'a' :: '@' :: '@' :: 'b' :: []) ≠
      ('@' :: '@' :: '@' :: 'a' :: '@' :: '@' :: 'b' :: []) ∧
    normLine ('@' :: '@' :: '@' :: 'a' :: '@' :: '@' :: 'b' :: []) =
      ('@' :: '@' :: '@' :: 'a' :: '@' :: '@' :: []) := by
  refine ⟨?_, by decide, by decide⟩
  rintro ⟨mid, rest, hmid, heq⟩
  cases mid with
  | nil =>
    have h3 := congrArg (fun l => l.get? 3) heq
    simp at h3
  | cons c mid' =>
    have h2 := congrArg (fun l => l.get? 2) heq
    simp at h2
    exact hmid (List.mem_cons.mpr (Or.inl h2))

/-- C4 (amended): every line of the form opening pair, at-sign-free
interior, closing pair, arbitrary trailing text is rewritten to the marker
with the trailing text removed (so `@@ -1,2 +1,3 @@ func foo() \x7b`
becomes `@@ -1,2 +1,3 @@`); every line not starting with two at signs
passes through byte-for-byte unchanged, as does every line containing no
substring matching `@@[^@]*@@`; however, a line starting with `@@` whose
first such substring begins later in the line is still rewritten there. -/
theorem C4_hunk_truncation :
    (∀ mid rest : List Char, '@' ∉ mid →
      normLine ('@' :: '@' :: (mid ++ '@' :: '@' :: rest)) =
        '@' :: '@' :: (mid ++ ['@', '@'])) ∧
    (∀ l : List Char, l.take 2 ≠ ['@', '@'] → normLine l = l) ∧
    (∀ l : List Char, ¬ ContainsHunkPair l → normLine l = l) ∧
    normLine "@@ -1,2 +1,3 @@ func foo() \x7b".toList = "@@ -1,2 +1,3 @@".toList := by
  refine ⟨?_, ?_, ?_, by decide⟩
  · intro mid rest hmid
    have hm : matchHunkAt ('@' :: '@' :: (mid ++ '@' :: '@' :: rest)) =
        some ('@' :: '@' :: (mid ++ ['@', '@'])) := by
      simp [matchHunkAt, closeHunk_of_split mid rest hmid]
    have ht : List.take 2 ('@' :: '@' :: (mid ++ '@' :: '@' :: rest)) =
        ['@', '@'] := rfl
    rw [normLine, if_pos ht]
    exact subHunk_of_match _ _ hm
  · intro l h
    rw [normLine, if_neg h]
  · intro l h
    by_cases ht : l.take 2 = ['@', '@']
    · rw [normLine, if_pos ht]
      exact subHunk_of_no_pair l h
    · rw [normLine, if_neg ht]

/-- C4 witness: a standard hunk header with trailing context text is
truncated right after its closing marker pair. -/
theorem C4_hunk_truncation_witness :
    normLine ('@' :: '@' :: (" -1 +1 ".toList ++ '@' :: '@' :: " end".toList)) =
      '@' :: '@' :: (" -1 +1 ".toList ++ ['@', '@']) :=
  C4_hunk_truncation.1 " -1 +1 ".toList " end".toList (by decide)

/-- C5: an event reaches the debounce check and possibly the pipeline
exactly when it is not a directory event and the string `.git` does not
occur as a substring anywhere in its path; in particular an ordinary-file
event whose path merely contains `.git` in some component name (here
`notes.gitignore.txt`) is discarded: the filter is a substring match, not
a path-segment match. -/
theorem C5_event_filter :
    (∀ st : DebounceState, ∀ e : FileSystemEvent, ∀ now : ℚ, ∀ d : DiffResult,
      ((on_any_event st e now d).1 ≠ .ignored ↔
        (e.is_directory = false ∧ ¬ (".git".toList <:+: e.src_path)))) ∧
    (on_any_event ⟨0, 10⟩ ⟨"/repo/notes.gitignore.txt".toList, false⟩ 100
      (.success []) = (.ignored, ⟨0, 10⟩)) := by
  constructor
  · intro st e now d
    by_cases hcond : ".git".toList <:+: e.src_path ∨ e.is_directory = true
    · rw [on_any_event, if_pos hcond]
      constructor
      · intro hne
        exact absurd rfl hne
      · rintro ⟨hdir, hinf⟩
        rcases hcond with hc | hc
        · exact absurd hc hinf
        · rw [hdir] at hc
          simp at hc
    · rw [on_any_event, if_neg hcond]
      push_neg at hcond
      constructor
      · intro _
        exact ⟨by simpa using hcond.2, hcond.1⟩
      · intro _
        cases htr : (tryTrigger st now).1 <;> simp [htr]
  · decide

/-- C5 witness: an ordinary-file event under the repository whose path
does not contain `.git` reaches the debounce check. -/
theorem C5_event_filter_witness :
    (on_any_event ⟨0, 10⟩ ⟨"/repo/src/main.py".toList, false⟩ 100
      (.success [])).1 ≠ .ignored :=
  (C5_event_filter.1 ⟨0, 10⟩ ⟨"/repo/src/main.py".toList, false⟩ 100
    (.success [])).mpr ⟨rfl, by decide⟩

set_option maxRecDepth 8000 in
/-- C6: for every question and every context the prompt builder returns
exactly two messages in the order system then user; the system message is
the fixed task-description text, identical across all invocations; the
user message embeds the context verbatim between the `<context>` and
`</context>` delimiters and the question verbatim between the `<question>`
and `</question>` delimiters; and the builder is pure, so equal inputs
produce the identical message sequence. -/
theorem C6_prompt_messages (q c q2 c2 : String) :
    (get_prompt q c).length = 2 ∧
    (get_prompt q c).map ChatMessage.role = ["system", "user"] ∧
    (get_prompt q c).head? = some ⟨"system", taskSystemContent⟩ ∧
    (get_prompt q c).head? = (get_prompt q2 c2).head? ∧
    get_prompt q c = [⟨"system", taskSystemContent⟩,
      ⟨"user", userHead ++ c ++ userMid ++ q ++ userTail⟩] ∧
    (userHead = "\n\nNow for the real task, solve the task in question block based on the context in context block.\nGenerate only the solution, do not generate anything else\n" ++ "<context>" ∧
     userMid = "</context>" ++ "\n" ++ "<question>" ∧
     userTail = "</question>" ++ "\n") ∧
    (q = q2 → c = c2 → get_prompt q c = get_prompt q2 c2) := by
  refine ⟨rfl, rfl, rfl, rfl, rfl, ⟨?_, by decide, by decide⟩, ?_⟩
  · decide
  · rintro rfl rfl
    rfl

/-- C6 witness: the purity conjunct at concrete equal inputs. -/
theorem C6_prompt_messages_witness :
    get_prompt "ask" "diff" = get_prompt "ask" "diff" :=
  (C6_prompt_messages "ask" "diff" "ask" "diff").2.2.2.2.2.2 rfl rfl

/-- C7: every completion request assembled by `DistilLabsLLM.invoke`
carries temperature exactly 0 (together with the configured model name and
the messages of `get_prompt`), and when the response has at least one
generated choice the client returns the first choice's message text. -/
theorem C7_invoke_request (llm : DistilLabsLLM) (q c : String)
    (respond : CompletionRequest → ChatResponse) :
    (mkChatRequest llm q c).temperature = 0 ∧
    (mkChatRequest llm q c).model = llm.model_name ∧
    (mkChatRequest llm q c).messages = get_prompt q c ∧
    (∀ first others,
      (respond (mkChatRequest llm q c)).choices = first :: others →
      invoke llm q c respond = some first.message.content) := by
  refine ⟨rfl, rfl, rfl, ?_⟩
  intro first others h
  unfold invoke
  rw [h]
  rfl

/-- C7 witness: a response with one generated choice returns its text. -/
theorem C7_invoke_request_witness :
    invoke ⟨"commit-bot-llama-1.0-1B", "EMPTY", 11434⟩ "ask" "diff"
      (fun _ => ⟨[⟨⟨"assistant", "fix: correct typo"⟩⟩]⟩) =
      some "fix: correct typo" :=
  (C7_invoke_request ⟨"commit-bot-llama-1.0-1B", "EMPTY", 11434⟩ "ask" "diff"
    (fun _ => ⟨[⟨⟨"assistant", "fix: correct typo"⟩⟩]⟩)).2.2.2
    ⟨⟨"assistant", "fix: correct typo"⟩⟩ [] rfl

theorem on_any_event_snd_eq (st : DebounceState) (ev : FileSystemEvent)
    (now : ℚ) (d d2 : DiffResult) :
    (on_any_event st ev now d).2 = (on_any_event st ev now d2).2 := by
  rw [on_any_event, on_any_event]
  split
  · rfl
  · cases htr : (tryTrigger st now).1 <;> simp [htr]

/-- C8: on a non-zero exit of the git diff subprocess the run logs the
captured error-stream content to standard error (prefixed with
"Error running git diff: ") and returns without invoking the
CompletionClient; the handler state after an event never depends on the
subprocess outcome, so the debounce state is not corrupted and the next
event is processed exactly as it would be after a successful run. -/
theorem C8_diff_failure_recovery :
    (∀ e : List Char, run_git_diff_analysis (.calledProcessError e) =
      .errorLogged ("Error running git diff: ".toList ++ e)) ∧
    (∀ e ctx : List Char,
      run_git_diff_analysis (.calledProcessError e) ≠ .invoked ctx) ∧
    (∀ st ev now d d2,
      (on_any_event st ev now d).2 = (on_any_event st ev now d2).2) ∧
    (∀ st ev ev2 now now2 e d2,
      (on_any_event (on_any_event st ev now (.calledProcessError e)).2
        ev2 now2 d2).1 =
      (on_any_event (on_any_event st ev now (.success [])).2
        ev2 now2 d2).1) := by
  refine ⟨fun e => rfl, ?_, on_any_event_snd_eq, ?_⟩
  · intro e ctx h
    simp [run_git_diff_analysis] at h
  · intro st ev ev2 now now2 e d2
    rw [on_any_event_snd_eq st ev now (.calledProcessError e) (.success [])]

/-- C8 witness: a failing diff subprocess yields the logged error line,
and leaves the handler state identical to the state after a success. -/
theorem C8_diff_failure_recovery_witness :
    run_git_diff_analysis (.calledProcessError "fatal: bad revision".toList) =
      .errorLogged ("Error running git diff: ".toList ++
        "fatal: bad revision".toList) ∧
    (on_any_event ⟨0, 10⟩ ⟨"/repo/a.py".toList, false⟩ 30
      (.calledProcessError "fatal: bad revision".toList)).2 =
    (on_any_event ⟨0, 10⟩ ⟨"/repo/a.py".toList, false⟩ 30 (.success [])).2 :=
  ⟨C8_diff_failure_recovery.1 "fatal: bad revision".toList,
   C8_diff_failure_recovery.2.2.1 ⟨0, 10⟩ ⟨"/repo/a.py".toList, false⟩ 30
     (.calledProcessError "fatal: bad revision".toList) (.success [])⟩

/-- C9: when the repository path does not exist the process prints the
error line to standard error and exits with status 1, before the
completion client or any watcher is constructed and before any pipeline
work (the exit result carries nothing but the code and the message); when
the path exists, the validation never terminates the process: the run
proceeds to watch mode or to the one-shot pipeline. -/
theorem C9_path_validation (path : List Char) (watch : Bool)
    (d : DiffResult) :
    mainRun path false watch d =
      .exited 1 ("Error: Repository path does not exist: ".toList ++ path) ∧
    (∀ code msg, mainRun path true watch d ≠ .exited code msg) := by
  constructor
  · rfl
  · intro code msg h
    cases watch <;> simp [mainRun] at h

/-- C9 witness: a missing path exits with status 1 and the error line; an
existing path never produces an exit result. -/
theorem C9_path_validation_witness :
    mainRun "/missing".toList false false (.success []) =
      .exited 1 ("Error: Repository path does not exist: /missing".toList) ∧
    mainRun "/repo".toList true true (.success []) ≠ .exited 1 [] := by
  constructor
  · rw [(C9_path_validation "/missing".toList false (.success [])).1]
    decide
  · exact (C9_path_validation "/repo".toList true (.success [])).2 1 []

/-- C10: diff extraction never propagates an exception: every possible
subprocess outcome (success, non-zero exit, or any other exception such as
a missing git executable or an invalid working directory) is mapped by
`run_git_diff_analysis` to an ordinary returned outcome; both exception
arms print to standard error and skip the trigger without invoking the
CompletionClient. -/
theorem C10_extraction_total (d : DiffResult) :
    (run_git_diff_analysis d = .noChanges ∨
      (∃ m, run_git_diff_analysis d = .errorLogged m) ∨
      (∃ ctx, run_git_diff_analysis d = .invoked ctx)) ∧
    (∀ e, run_git_diff_analysis (.calledProcessError e) =
      .errorLogged ("Error running git diff: ".toList ++ e)) ∧
    (∀ e, run_git_diff_analysis (.otherError e) =
      .errorLogged ("Error: ".toList ++ e)) ∧
    (∀ e ctx, run_git_diff_analysis (.otherError e) ≠ .invoked ctx) := by
  refine ⟨?_, fun e => rfl, fun e => rfl, ?_⟩
  · cases d with
    | success out =>
      by_cases h : normalizeDiff out = []
      · exact Or.inl (by simp [run_git_diff_analysis, h])
      · exact Or.inr (Or.inr ⟨normalizeDiff out,
          by simp [run_git_diff_analysis, h]⟩)
    | calledProcessError e => exact Or.inr (Or.inl ⟨_, rfl⟩)
    | otherError e => exact Or.inr (Or.inl ⟨_, rfl⟩)
  · intro e ctx h
    simp [run_git_diff_analysis] at h

/-- C10 witness: a missing git executable (a FileNotFoundError, caught by
the generic exception arm) is logged and returns an ordinary outcome. -/
theorem C10_extraction_total_witness :
    run_git_diff_analysis (.otherError "No such file or directory: git".toList) =
      .errorLogged ("Error: ".toList ++
        "No such file or directory: git".toList) :=
  (C10_extraction_total
    (.otherError "No such file or directory: git".toList)).2.2.1
    "No such file or directory: git".toList
